import Mathlib

/-!
Shallow embedding of the networkteam/filestore content-addressable blob store.

The embedding models:
* the content hasher (Go `crypto/sha256` + `encoding/hex`) as executable
  functions on byte lists (`sha256`, `sha256hex`);
* the in-memory backend (`memory.Filestore`) as an association list from
  hash strings to byte lists with Go-map lookup semantics;
* the shared batched-iteration loop of the local, memory and s3 backends
  (`Iterate`), with the callback modelled as a state-passing function that
  may return an error, exactly as Go callbacks mutate captured state;
* the local backend (`local.Filestore`) as a state machine over a filesystem
  state (`Local.FS`) together with an oracle (`Local.Oracle`) choosing which
  filesystem syscalls fail, so that every control path of `Store` (including
  the deferred cleanup) is represented;
* Go error values and `errors.Is` chains (`GoError`, `errorIs`), enough to
  distinguish the `filestore.ErrNotExist` sentinel from the `os` level
  not-exist errors.
-/

set_option maxRecDepth 8000

/-! ## Go error values and errors.Is -/

/-- Model of the Go error values appearing in the repository: the
`filestore.ErrNotExist` sentinel, the `os`/`io/fs` `ErrNotExist` sentinel,
a raw `syscall.ENOENT`, the local package's `errInvalidHash`, an opaque
failure injected into a syscall by the oracle, `*os.PathError` wrapping,
`fmt.Errorf("...: %w", err)` wrapping, and `multierror.Append`. -/
inductive GoError where
  | errNotExist
  | osErrNotExist
  | enoent
  | invalidHash
  | ioFail (op : String)
  | pathError (op path : String) (cause : GoError)
  | wrapped (msg : String) (cause : GoError)
  | multi (first second : GoError)
deriving DecidableEq, Repr

/-- Model of Go's `errors.Is`: unwrap through `%w` wrapping, `*os.PathError`
and multierror chains; `syscall.ENOENT` additionally matches the `os` package
`ErrNotExist` sentinel via its `Is` method. -/
def errorIs : GoError → GoError → Bool
  | e@(.pathError _ _ cause), target => e == target || errorIs cause target
  | e@(.wrapped _ cause), target => e == target || errorIs cause target
  | e@(.multi a b), target => e == target || errorIs a target || errorIs b target
  | .enoent, target => GoError.enoent == target || target == .osErrNotExist
  | e, target => e == target

/-! ## Content hasher: SHA-256 (crypto/sha256) and lowercase hex (encoding/hex) -/

/-- Word arithmetic modulo 2^32, modelling Go's `uint32`. -/
def w32 (n : Nat) : Nat := n % 4294967296

/-- Rotation of the 32-bit word `x` to the right by `k` positions. -/
def rotr (k x : Nat) : Nat := ((x >>> k) ||| (x <<< (32 - k))) % 4294967296

def bigS0 (x : Nat) : Nat := rotr 2 x ^^^ rotr 13 x ^^^ rotr 22 x
def bigS1 (x : Nat) : Nat := rotr 6 x ^^^ rotr 11 x ^^^ rotr 25 x
def smallS0 (x : Nat) : Nat := rotr 7 x ^^^ rotr 18 x ^^^ (x >>> 3)
def smallS1 (x : Nat) : Nat := rotr 17 x ^^^ rotr 19 x ^^^ (x >>> 10)

def chFn (x y z : Nat) : Nat := (x &&& y) ^^^ ((4294967295 - x) &&& z)
def majFn (x y z : Nat) : Nat := ((x &&& y) ^^^ (x &&& z)) ^^^ (y &&& z)

/-- Round constants of SHA-256 (FIPS 180-4), in decimal. -/
def sha256K : List Nat :=
  [1116352408, 1899447441, 3049323471, 3921009573, 961987163, 1508970993,
   2453635748, 2870763221, 3624381080, 310598401, 607225278, 1426881987,
   1925078388, 2162078206, 2614888103, 3248222580, 3835390401, 4022224774,
   264347078, 604807628, 770255983, 1249150122, 1555081692, 1996064986,
   2554220882, 2821834349, 2952996808, 3210313671, 3336571891, 3584528711,
   113926993, 338241895, 666307205, 773529912, 1294757372, 1396182291,
   1695183700, 1986661051, 2177026350, 2456956037, 2730485921, 2820302411,
   3259730800, 3345764771, 3516065817, 3600352804, 4094571909, 275423344,
   430227734, 506948616, 659060556, 883997877, 958139571, 1322822218,
   1537002063, 1747873779, 1955562222, 2024104815, 2227730452, 2361852424,
   2428436474, 2756734187, 3204031479, 3329325298]

/-- Hash state: the eight 32-bit working variables of SHA-256. -/
structure S8 where
  a : Nat
  b : Nat
  c : Nat
  d : Nat
  e : Nat
  f : Nat
  g : Nat
  h : Nat
deriving DecidableEq, Repr

/-- Initial hash value of SHA-256, in decimal. -/
def initH : S8 :=
  ⟨1779033703, 3144134277, 1013904242, 2773480762,
   1359893119, 2600822924, 528734635, 1541459225⟩

/-- One round of the SHA-256 compression function. -/
def roundStep (s : S8) (kw : Nat × Nat) : S8 :=
  let t1 := w32 (s.h + bigS1 s.e + chFn s.e s.f s.g + kw.1 + kw.2)
  let t2 := w32 (bigS0 s.a + majFn s.a s.b s.c)
  ⟨w32 (t1 + t2), s.a, s.b, s.c, w32 (s.d + t1), s.e, s.f, s.g⟩

/-- Extend the 16 message words to 64; `acc` holds the words most-recent-first. -/
def schedExt (acc : List Nat) : Nat → List Nat
  | 0 => acc
  | n + 1 =>
      let w := w32 (smallS1 (acc.getD 1 0) + acc.getD 6 0 + smallS0 (acc.getD 14 0) + acc.getD 15 0)
      schedExt (w :: acc) n

/-- Message schedule of one 16-word block. -/
def schedule (block : List Nat) : List Nat := (schedExt block.reverse 48).reverse

/-- Compression of one block into the running hash state. -/
def compressBlock (s : S8) (block : List Nat) : S8 :=
  let t := ((schedule block).zip sha256K).foldl roundStep s
  ⟨w32 (s.a + t.a), w32 (s.b + t.b), w32 (s.c + t.c), w32 (s.d + t.d),
   w32 (s.e + t.e), w32 (s.f + t.f), w32 (s.g + t.g), w32 (s.h + t.h)⟩

/-- Big-endian 32-bit words from bytes, four at a time. -/
def bytesToWords : List Nat → List Nat
  | a :: b :: c :: d :: rest => (a * 16777216 + b * 65536 + c * 256 + d) :: bytesToWords rest
  | _ => []

/-- Split a word list into 16-word blocks. -/
def toBlocks : List Nat → List (List Nat)
  | w0 :: w1 :: w2 :: w3 :: w4 :: w5 :: w6 :: w7 :: w8 :: w9 :: w10 :: w11 :: w12 :: w13 :: w14 :: w15 :: rest =>
      [w0, w1, w2, w3, w4, w5, w6, w7, w8, w9, w10, w11, w12, w13, w14, w15] :: toBlocks rest
  | _ => []

/-- Number of zero padding bytes for a message of `len` bytes. -/
def padZeros (len : Nat) : Nat := (120 - (len + 1) % 64) % 64

/-- Big-endian 64-bit byte encoding of the message bit length. -/
def lenBytes (n : Nat) : List Nat :=
  [n / 72057594037927936 % 256, n / 281474976710656 % 256, n / 1099511627776 % 256,
   n / 4294967296 % 256, n / 16777216 % 256, n / 65536 % 256, n / 256 % 256, n % 256]

/-- Big-endian bytes of a 32-bit word. -/
def wordBytes (w : Nat) : List Nat := [w / 16777216 % 256, w / 65536 % 256, w / 256 % 256, w % 256]

/-- Digest bytes from the final hash state. -/
def digestBytes (s : S8) : List Nat :=
  wordBytes s.a ++ wordBytes s.b ++ wordBytes s.c ++ wordBytes s.d ++
  wordBytes s.e ++ wordBytes s.f ++ wordBytes s.g ++ wordBytes s.h

/-- SHA-256 digest of a byte sequence, modelling Go's `crypto/sha256`
(`digest.Sum` after writing the whole message). -/
def sha256 (msg : List Nat) : List Nat :=
  let bytes := msg.map (· % 256)
  let padded := bytes ++ 128 :: List.replicate (padZeros bytes.length) 0 ++ lenBytes (bytes.length * 8)
  digestBytes ((toBlocks (bytesToWords padded)).foldl compressBlock initH)

/-- Lowercase hexadecimal digit table, Go's `hextable` in `encoding/hex`. -/
def hexDigits : List Char := "0123456789abcdef".data

def hexChar (n : Nat) : Char := hexDigits.getD n '0'

/-- Character stream of Go's `hex.EncodeToString`: two lowercase hex digits
per byte, high nibble first. -/
def hexEncodeChars : List Nat → List Char
  | [] => []
  | b :: bs => hexChar (b / 16) :: hexChar (b % 16) :: hexEncodeChars bs

def hexEncode (bs : List Nat) : String := String.mk (hexEncodeChars bs)

/-- The hash identifier a `Store` call computes:
`hex.EncodeToString(sha256.Sum(content))`. -/
def sha256hex (msg : List Nat) : String := hexEncode (sha256 msg)

/-- Byte sequence of an ASCII string (model of Go's `strings.NewReader`). -/
def strBytes (s : String) : List Nat := s.data.map Char.toNat

/-! ## Go map on hash strings -/

/-- Map update `m[k] = v` with association-list representation. -/
def mapSet {α β : Type} [BEq α] (m : List (α × β)) (k : α) (v : β) : List (α × β) :=
  (k, v) :: m.filter (fun p => !(p.1 == k))

/-- Map deletion `delete(m, k)`. -/
def mapDel {α β : Type} [BEq α] (m : List (α × β)) (k : α) : List (α × β) :=
  m.filter (fun p => !(p.1 == k))

/-! ## In-memory backend (memory.Filestore) -/

namespace Memory

/-- Contents of `memory.Filestore`: the guarded `files map[string][]byte`. -/
abbrev FilesMap := List (String × List Nat)

/-- Model of `memory.NewFilestore`: the empty map. -/
def NewFilestore : FilesMap := []

/-- Model of `memory.Filestore.Store`: read everything, hash it, store the
bytes under the hex digest and return the digest. -/
def Store (m : FilesMap) (r : List Nat) : String × FilesMap :=
  let hash := sha256hex r
  (hash, mapSet m hash r)

/-- Model of `memory.Filestore.StoreHashed`: if the hash is already present
return immediately without reading the reader, else store the reader's bytes
under the caller-supplied hash. The boolean records whether the reader was
read (`io.ReadAll` was reached). -/
def StoreHashed (m : FilesMap) (r : List Nat) (hash : String) : FilesMap × Bool :=
  if (List.lookup hash m).isSome then (m, false)
  else (mapSet m hash r, true)

/-- Model of `memory.Filestore.Exists`. -/
def Exists (m : FilesMap) (hash : String) : Bool := (List.lookup hash m).isSome

/-- Model of `memory.Filestore.Fetch`. -/
def Fetch (m : FilesMap) (hash : String) : Except GoError (List Nat) :=
  match List.lookup hash m with
  | some data => .ok data
  | none => .error .errNotExist

/-- Model of `memory.Filestore.Remove`. -/
def Remove (m : FilesMap) (hash : String) : Except GoError FilesMap :=
  if (List.lookup hash m).isSome then .ok (mapDel m hash)
  else .error .errNotExist

/-- Model of `memory.Filestore.Size`. -/
def Size (m : FilesMap) (hash : String) : Except GoError Nat :=
  match List.lookup hash m with
  | some data => .ok data.length
  | none => .error .errNotExist

/-- Model of `memory.Filestore.ImgproxyURLSource`. -/
def ImgproxyURLSource (hash : String) : Except GoError String :=
  .ok ("memory://" ++ hash)

end Memory

/-! ## Batched iteration (shared loop of local, memory and s3 Iterate) -/

/-- Loop body shared by `local.Filestore.Iterate`, `memory.Filestore.Iterate`
and `s3.Filestore.Iterate`: collect hashes into `buf`, invoke the callback on
every full batch of `k` and once more on a trailing non-empty batch, and stop
at the first callback error. The callback mutates caller state `σ` (Go
callbacks are closures over mutable state) and may return an error. -/
def iterateAux {σ ε : Type} (k : Nat) (cb : List String → σ → σ × Option ε) :
    List String → List String → σ → σ × Option ε
  | buf, [], s => if buf.length > 0 then cb buf s else (s, none)
  | buf, x :: xs, s =>
      let buf' := buf ++ [x]
      if buf'.length == k then
        match cb buf' s with
        | (s', none) => iterateAux k cb [] xs s'
        | (s', some e) => (s', some e)
      else iterateAux k cb buf' xs s

/-- Model of `Iterate(ctx, maxBatch, callback)` applied to the backend's
enumeration `hashes` of stored hashes (filesystem walk order for local, map
range order for memory, listing order for s3). -/
def Iterate {σ ε : Type} (k : Nat) (cb : List String → σ → σ × Option ε)
    (hashes : List String) (s : σ) : σ × Option ε :=
  iterateAux k cb [] hashes s

/-- Batches the loop produces: the pure shape of `iterateAux` for a callback
that never errors. -/
def chunksAux (k : Nat) : List String → List String → List (List String)
  | buf, [] => if buf.length > 0 then [buf] else []
  | buf, x :: xs =>
      let buf' := buf ++ [x]
      if buf'.length == k then buf' :: chunksAux k [] xs else chunksAux k buf' xs

def chunks (k : Nat) (l : List String) : List (List String) := chunksAux k [] l

/-- Recording callback: counts invocations and records each batch, never
errors (the shape of the repository's own Iterate tests). -/
def cbRec : List String → Nat × List (List String) → (Nat × List (List String)) × Option GoError :=
  fun b s => ((s.1 + 1, s.2 ++ [b]), none)

/-- Callback failing on its `j`-th invocation (0-based) with error `e`,
recording invocations like `cbRec`. -/
def cbErrAt (j : Nat) (e : GoError) :
    List String → Nat × List (List String) → (Nat × List (List String)) × Option GoError :=
  fun b s => ((s.1 + 1, s.2 ++ [b]), if s.1 == j then some e else none)

/-! ## Local backend (local.Filestore) -/

namespace Local

/-- Go `hash[0:n]` on an ASCII hash string. -/
def goSlice (s : String) (n : Nat) : String := String.mk (s.data.take n)

/-- Model of `local.Filestore.prefixPath`. -/
def prefixPath (ps : Nat) (hash : String) : Except GoError String :=
  if hash.length < ps then .error .invalidHash
  else .ok (goSlice hash ps)

/-- Filesystem state visible to the local backend: the next fresh temp-file
name, the staging directory entries (name and current content), the existing
shard directories and the asset files keyed by hash. -/
structure FS where
  tmpNext : Nat
  tmpFiles : List (Nat × List Nat)
  dirs : List String
  assets : List (String × List Nat)
deriving DecidableEq, Repr

/-- Model of `local.NewFilestore` on fresh directories. -/
def NewFilestore : FS := ⟨0, [], [], []⟩

/-- Failure oracle for the filesystem syscalls issued by `Store`: each flag
says whether the corresponding call succeeds; `copied` is how many bytes the
tee wrote into the temp file before a failing copy. -/
structure Oracle where
  createTempOk : Bool
  copyOk : Bool
  copied : Nat
  closeOk : Bool
  mkdirOk : Bool
  renameOk : Bool
  chmodOk : Bool
  deferCloseOk : Bool
  deferRemoveOk : Bool
deriving DecidableEq, Repr

/-- Oracle on which every syscall succeeds. -/
def allOk : Oracle := ⟨true, true, 0, true, true, true, true, true, true⟩

/-- Go `multierror.Append(err, e2)` where `err` may be nil. -/
def appendErr (err : Option GoError) (e2 : GoError) : GoError :=
  match err with
  | none => e2
  | some e1 => .multi e1 e2

/-- The deferred cleanup of `local.Filestore.Store`: close the temp file if
not yet closed (returning early if that fails), then remove it if it was not
renamed away (reporting a failing removal alongside the original error). -/
def deferCleanup (o : Oracle) (id : Nat) (tmpWasClosed tmpWasRenamed : Bool)
    (err : Option GoError) (hash : String) (fs : FS) : (String × Option GoError) × FS :=
  if !tmpWasClosed && !o.deferCloseOk then
    ((hash, some (appendErr err (.wrapped "closing temporary file" (.ioFail "close")))), fs)
  else if !tmpWasRenamed then
    if o.deferRemoveOk then
      ((hash, err), { fs with tmpFiles := mapDel fs.tmpFiles id })
    else
      ((hash, some (appendErr err (.wrapped "removing temporary file" (.ioFail "remove")))), fs)
  else
    ((hash, err), fs)

/-- Model of `local.Filestore.Store`: create a temp file in the staging
directory, tee the reader into it while hashing, close it, short-circuit when
the target path already exists, otherwise create the shard directory, rename
the temp file onto the target and chmod it; on any failure run the deferred
cleanup. Returns the `(hash, err)` pair and the resulting filesystem. -/
def Store (ps : Nat) (o : Oracle) (fs : FS) (r : List Nat) : (String × Option GoError) × FS :=
  if !o.createTempOk then
    (("", some (.wrapped "creating temp file" (.ioFail "createtemp"))), fs)
  else
    let id := fs.tmpNext
    let fs1 : FS := { fs with tmpNext := fs.tmpNext + 1, tmpFiles := (id, []) :: fs.tmpFiles }
    if !o.copyOk then
      let fs2 : FS := { fs1 with tmpFiles := mapSet fs1.tmpFiles id (r.take o.copied) }
      deferCleanup o id false false (some (.wrapped "copying reader" (.ioFail "copy"))) "" fs2
    else
      let fs2 : FS := { fs1 with tmpFiles := mapSet fs1.tmpFiles id r }
      let hashHex := sha256hex r
      if hashHex.length < ps then
        deferCleanup o id false false (some .invalidHash) "" fs2
      else
        let pathPrefix := goSlice hashHex ps
        if !o.closeOk then
          deferCleanup o id false false (some (.wrapped "closing temp file" (.ioFail "close"))) "" fs2
        else
          if (List.lookup hashHex fs2.assets).isSome then
            deferCleanup o id true false none hashHex fs2
          else
            if !o.mkdirOk then
              deferCleanup o id true false (some (.wrapped "creating asset subdirectory" (.ioFail "mkdir"))) "" fs2
            else
              let fs3 : FS :=
                { fs2 with dirs := if fs2.dirs.contains pathPrefix then fs2.dirs else pathPrefix :: fs2.dirs }
              if !o.renameOk then
                deferCleanup o id true false (some (.wrapped "renaming temp file" (.ioFail "rename"))) "" fs3
              else
                let fs4 : FS :=
                  { fs3 with tmpFiles := mapDel fs3.tmpFiles id, assets := mapSet fs3.assets hashHex r }
                if !o.chmodOk then
                  deferCleanup o id true true (some (.wrapped "setting file mode" (.ioFail "chmod"))) "" fs4
                else
                  deferCleanup o id true true none hashHex fs4

/-- Model of `local.Filestore.Fetch`: `os.Open` of the sharded path; a
not-exist error is translated to the `filestore.ErrNotExist` sentinel. -/
def Fetch (ps : Nat) (fs : FS) (hash : String) : Except GoError (List Nat) :=
  if hash.length < ps then .error .invalidHash
  else
    match List.lookup hash fs.assets with
    | some data => .ok data
    | none =>
        let openErr : GoError := .pathError "open" (goSlice hash ps ++ "/" ++ hash) .enoent
        if errorIs openErr .osErrNotExist then .error .errNotExist
        else .error (.wrapped "opening file" openErr)

/-- Model of `local.Filestore.ImgproxyURLSource`. -/
def ImgproxyURLSource (ps : Nat) (hash : String) : Except GoError String :=
  match prefixPath ps hash with
  | .error e => .error e
  | .ok pre => .ok ("local:///" ++ pre ++ "/" ++ hash)

/-- Model of `local.Filestore.Remove`: `os.Remove` of the sharded path (its
not-exist error is returned wrapped, not translated), then removal of the
shard directory when it became empty. -/
def Remove (ps : Nat) (fs : FS) (hash : String) : Except GoError FS :=
  if hash.length < ps then .error .invalidHash
  else
    let dirName := goSlice hash ps
    let fileName := dirName ++ "/" ++ hash
    match List.lookup hash fs.assets with
    | none => .error (.wrapped "removing file" (.pathError "remove" fileName .enoent))
    | some _ =>
        let fs' : FS := { fs with assets := mapDel fs.assets hash }
        if fs'.assets.any (fun p => goSlice p.1 ps == dirName) then .ok fs'
        else .ok { fs' with dirs := fs'.dirs.filter (fun d => !(d == dirName)) }

/-- Model of `local.Filestore.Size`: `os.Stat` of the sharded path; a stat
failure is returned as-is (not translated to the store's sentinel). -/
def Size (ps : Nat) (fs : FS) (hash : String) : Except GoError Nat :=
  if hash.length < ps then .error .invalidHash
  else
    match List.lookup hash fs.assets with
    | some data => .ok data.length
    | none => .error (.pathError "stat" (goSlice hash ps ++ "/" ++ hash) .enoent)

end Local

/-! ## Operation sequences over the in-memory backend -/

/-- Store/Remove operations of the in-memory backend. -/
inductive FSOp where
  | store (r : List Nat)
  | removeOp (hash : String)

/-- Apply one operation (a failing Remove leaves the map unchanged). -/
def applyOp (m : Memory.FilesMap) : FSOp → Memory.FilesMap
  | .store r => (Memory.Store m r).2
  | .removeOp h =>
      match Memory.Remove m h with
      | .ok m' => m'
      | .error _ => m

/-- Apply a sequence of operations starting from `memory.NewFilestore`. -/
def applyOps (ops : List FSOp) : Memory.FilesMap := ops.foldl applyOp Memory.NewFilestore

/-- Oracle on which only the final `os.Chmod` fails. -/
def oChmodFail : Local.Oracle := ⟨true, true, 0, true, true, true, false, true, true⟩

/-- Oracle on which only the `io.Copy` of the reader into the temp file fails. -/
def oCopyFail : Local.Oracle := ⟨true, false, 0, true, true, true, true, true, true⟩

/-! ## Validation of the hash model against the repository's test vector -/

theorem sha256hex_nil :
    sha256hex [] = "e3b0c44298fc1c149afbf4c8996fb92427ae41e4649b934ca495991b7852b855" := by
  decide

theorem sha256hex_testContent :
    sha256hex (strBytes "Test content") =
      "9d9595c5d94fb65b824f56e9999527dba9542481580d69feb89056aabaa0aa87" := by
  decide

/-! ## Helper lemmas: map lookup -/

theorem lookup_filter_ne {α β : Type} [BEq α] [LawfulBEq α] (m : List (α × β)) (k k' : α)
    (h : k' ≠ k) : List.lookup k' (m.filter (fun p => !(p.1 == k))) = List.lookup k' m := by
  induction m with
  | nil => rfl
  | cons p t ih =>
      obtain ⟨a, b⟩ := p
      by_cases hak : a = k
      · subst hak
        simp [List.lookup, beq_eq_false_iff_ne.mpr h, ih]
      · by_cases hka : k' = a
        · subst hka
          simp [List.lookup, beq_eq_false_iff_ne.mpr hak]
        · simp [List.lookup, beq_eq_false_iff_ne.mpr hka, beq_eq_false_iff_ne.mpr hak, ih]

theorem lookup_mapSet_self {α β : Type} [BEq α] [LawfulBEq α] (m : List (α × β)) (k : α) (v : β) :
    List.lookup k (mapSet m k v) = some v := by
  simp [mapSet, List.lookup]

theorem lookup_mapSet_ne {α β : Type} [BEq α] [LawfulBEq α] (m : List (α × β)) (k k' : α) (v : β)
    (h : k' ≠ k) : List.lookup k' (mapSet m k v) = List.lookup k' m := by
  simp [mapSet, List.lookup, beq_eq_false_iff_ne.mpr h, lookup_filter_ne m k k' h]

theorem lookup_mapDel_self {α β : Type} [BEq α] [LawfulBEq α] (m : List (α × β)) (k : α) :
    List.lookup k (mapDel m k) = none := by
  induction m with
  | nil => rfl
  | cons p t ih =>
      obtain ⟨a, b⟩ := p
      by_cases hak : a = k
      · subst hak
        have hdel : mapDel ((a, b) :: t) a = mapDel t a := by simp [mapDel]
        rw [hdel]; exact ih
      · have hdel : mapDel ((a, b) :: t) k = (a, b) :: mapDel t k := by
          simp [mapDel, beq_eq_false_iff_ne.mpr hak]
        rw [hdel]
        simpa [List.lookup, beq_eq_false_iff_ne.mpr (fun hh : k = a => hak hh.symm)] using ih

theorem lookup_mapDel_ne {α β : Type} [BEq α] [LawfulBEq α] (m : List (α × β)) (k k' : α)
    (h : k' ≠ k) : List.lookup k' (mapDel m k) = List.lookup k' m :=
  lookup_filter_ne m k k' h

theorem lookup_mapSet_cases {α β : Type} [BEq α] [LawfulBEq α] (m : List (α × β)) (k k' : α)
    (v v' : β) (h : List.lookup k' (mapSet m k v) = some v') :
    (k' = k ∧ v' = v) ∨ (k' ≠ k ∧ List.lookup k' m = some v') := by
  by_cases hk : k' = k
  · subst hk
    rw [lookup_mapSet_self] at h
    exact Or.inl ⟨rfl, (Option.some.injEq _ _ ▸ h).symm⟩
  · rw [lookup_mapSet_ne m k k' v hk] at h
    exact Or.inr ⟨hk, h⟩

/-! ## Helper lemmas: hash shape -/

theorem digestBytes_length (s : S8) : (digestBytes s).length = 32 := rfl

theorem sha256_length (msg : List Nat) : (sha256 msg).length = 32 := digestBytes_length _

theorem hexEncodeChars_length (bs : List Nat) : (hexEncodeChars bs).length = 2 * bs.length := by
  induction bs with
  | nil => rfl
  | cons b t ih => simp [hexEncodeChars, ih]; omega

theorem sha256hex_length (msg : List Nat) : (sha256hex msg).length = 64 := by
  show (hexEncodeChars (sha256 msg)).length = 64
  rw [hexEncodeChars_length, sha256_length]

theorem wordBytes_lt (w b : Nat) (h : b ∈ wordBytes w) : b < 256 := by
  simp [wordBytes] at h
  rcases h with h | h | h | h <;> omega

theorem digestBytes_lt (s : S8) (b : Nat) (h : b ∈ digestBytes s) : b < 256 := by
  simp only [digestBytes, List.mem_append] at h
  rcases h with ((((((h | h) | h) | h) | h) | h) | h) | h <;> exact wordBytes_lt _ _ h

theorem sha256_lt (msg : List Nat) (b : Nat) (h : b ∈ sha256 msg) : b < 256 :=
  digestBytes_lt _ _ h

theorem hexChar_mem (n : Nat) (h : n < 16) : hexChar n ∈ hexDigits := by
  interval_cases n <;> decide

theorem hexEncodeChars_mem (bs : List Nat) (hb : ∀ b ∈ bs, b < 256) (c : Char)
    (hc : c ∈ hexEncodeChars bs) : c ∈ hexDigits := by
  induction bs with
  | nil => simp [hexEncodeChars] at hc
  | cons b t ih =>
      simp only [hexEncodeChars, List.mem_cons] at hc
      rcases hc with rfl | rfl | hc
      · refine hexChar_mem _ ?_
        have hb' : b < 256 := hb b (by simp)
        exact (Nat.div_lt_iff_lt_mul (by norm_num)).mpr (by omega)
      · exact hexChar_mem _ (Nat.mod_lt _ (by norm_num))
      · exact ih (fun x hx => hb x (by simp [hx])) hc

theorem sha256hex_mem (msg : List Nat) (c : Char) (hc : c ∈ (sha256hex msg).data) :
    c ∈ hexDigits :=
  hexEncodeChars_mem _ (fun b hb => sha256_lt msg b hb) c hc

/-! ## Helper lemmas: batched iteration -/

theorem iterateAux_rec (k : Nat) :
    ∀ (xs buf : List String) (n : Nat) (bs : List (List String)),
      iterateAux k cbRec buf xs (n, bs) =
        ((n + (chunksAux k buf xs).length, bs ++ chunksAux k buf xs), none) := by
  intro xs
  induction xs with
  | nil =>
      intro buf n bs
      by_cases h : buf.length > 0 <;> simp [iterateAux, chunksAux, h, cbRec]
  | cons x t ih =>
      intro buf n bs
      by_cases h : buf.length + 1 = k
      · simp [iterateAux, chunksAux, cbRec, h, ih, List.append_assoc]
        omega
      · simp [iterateAux, chunksAux, cbRec, h, ih]

theorem chunksAux_flatten (k : Nat) :
    ∀ (xs buf : List String), (chunksAux k buf xs).flatten = buf ++ xs := by
  intro xs
  induction xs with
  | nil =>
      intro buf
      by_cases h : buf.length > 0
      · simp [chunksAux, h]
      · have hbuf : buf = [] := List.length_eq_zero.mp (by omega)
        subst hbuf; simp [chunksAux]
  | cons x t ih =>
      intro buf
      by_cases h : buf.length + 1 = k
      · simp [chunksAux, h, ih, List.append_assoc]
      · simp [chunksAux, h, ih]

theorem chunksAux_length (k : Nat) :
    ∀ (xs buf : List String), buf.length < k →
      (chunksAux k buf xs).length = (buf.length + xs.length + k - 1) / k := by
  intro xs
  induction xs with
  | nil =>
      intro buf hb
      by_cases h : buf.length > 0
      · have h1 : chunksAux k buf [] = [buf] := by simp [chunksAux, h]
        rw [h1]
        simp only [List.length_cons, List.length_nil]
        symm
        exact Nat.div_eq_of_lt_le (by omega) (by omega)
      · have h1 : chunksAux k buf [] = [] := by simp [chunksAux, h]
        rw [h1]
        simp only [List.length_nil]
        symm
        exact Nat.div_eq_of_lt (by omega)
  | cons x t ih =>
      intro buf hb
      by_cases h : buf.length + 1 = k
      · have h1 : chunksAux k buf (x :: t) = (buf ++ [x]) :: chunksAux k [] t := by
          simp [chunksAux, h]
        rw [h1, List.length_cons, ih [] (by simp; omega)]
        simp only [List.length_nil, List.length_cons, Nat.zero_add]
        have h2 : buf.length + (t.length + 1) + k - 1 = t.length + k - 1 + k := by omega
        rw [h2, Nat.add_div_right _ (by omega)]
      · have h1 : chunksAux k buf (x :: t) = chunksAux k (buf ++ [x]) t := by
          simp [chunksAux, h]
        have hlt : (buf ++ [x]).length < k := by
          simp only [List.length_cons, List.length_append, List.length_nil]
          omega
        rw [h1, ih (buf ++ [x]) hlt]
        congr 1
        simp only [List.length_nil, List.length_append, List.length_cons]
        omega

theorem chunksAux_last (k : Nat) :
    ∀ (xs buf : List String), buf.length < k → (buf ≠ [] ∨ xs ≠ []) →
      chunksAux k buf xs ≠ [] ∧
      (∀ b ∈ (chunksAux k buf xs).dropLast, b.length = k) ∧
      ((chunksAux k buf xs).getLast?.map List.length =
        some (if (buf.length + xs.length) % k = 0 then k
              else (buf.length + xs.length) % k)) := by
  intro xs
  induction xs with
  | nil =>
      intro buf hb hne
      have hbne : buf ≠ [] := by
        rcases hne with h | h
        · exact h
        · exact absurd rfl h
      have hlen : buf.length > 0 := List.length_pos.mpr hbne
      have h1 : chunksAux k buf [] = [buf] := by simp [chunksAux, hlen]
      rw [h1]
      refine ⟨by simp, by simp, ?_⟩
      have hm : (buf.length + ([] : List String).length) % k = buf.length := by
        simpa using Nat.mod_eq_of_lt hb
      rw [hm, if_neg (by omega)]
      rfl
  | cons x t ih =>
      intro buf hb hne
      by_cases h : buf.length + 1 = k
      · have h1 : chunksAux k buf (x :: t) = (buf ++ [x]) :: chunksAux k [] t := by
          simp [chunksAux, h]
        rw [h1]
        by_cases ht : t = []
        · subst ht
          have h2 : chunksAux k ([] : List String) [] = [] := by simp [chunksAux]
          rw [h2]
          refine ⟨by simp, by simp, ?_⟩
          have hm : (buf.length + (x :: ([] : List String)).length) % k = 0 := by
            simp only [List.length_cons, List.length_nil, Nat.zero_add]
            rw [h, Nat.mod_self]
          rw [hm, if_pos rfl]
          simp only [List.getLast?_singleton, Option.map_some', Option.some.injEq,
            List.length_append, List.length_cons, List.length_nil]
          omega
        · obtain ⟨hne', hdrop, hlast⟩ := ih [] (by simp; omega) (Or.inr ht)
          obtain ⟨r, rs, hr⟩ := List.exists_cons_of_ne_nil hne'
          refine ⟨by simp, ?_, ?_⟩
          · intro b hbmem
            rw [hr, List.dropLast_cons₂, List.mem_cons] at hbmem
            rcases hbmem with rfl | hbmem
            · simp only [List.length_append, List.length_nil, List.length_cons]
              omega
            · exact hdrop b (by rw [hr]; exact hbmem)
          · rw [hr, List.getLast?_cons_cons]
            rw [hr] at hlast
            have hm : buf.length + (x :: t).length = k + (([] : List String).length + t.length) := by
              simp only [List.length_cons, List.length_nil]
              omega
            rw [hm, Nat.add_mod_left]
            exact hlast
      · have h1 : chunksAux k buf (x :: t) = chunksAux k (buf ++ [x]) t := by
          simp [chunksAux, h]
        have hlt : (buf ++ [x]).length < k := by
          simp only [List.length_cons, List.length_append, List.length_nil]
          omega
        rw [h1]
        obtain ⟨h1', h2', h3'⟩ := ih (buf ++ [x]) hlt (Or.inl (by simp))
        refine ⟨h1', h2', ?_⟩
        have hm : buf.length + (x :: t).length = (buf ++ [x]).length + t.length := by
          simp only [List.length_nil, List.length_append, List.length_cons]
          omega
        rw [hm]
        exact h3'

/-! ## Helper lemmas: local backend -/

theorem deferCleanup_assets (o : Local.Oracle) (id : Nat) (c r : Bool) (err : Option GoError)
    (hash : String) (fs : Local.FS) :
    (Local.deferCleanup o id c r err hash fs).2.assets = fs.assets := by
  unfold Local.deferCleanup
  split_ifs <;> rfl

theorem deferCleanup_closed_renamed (o : Local.Oracle) (id : Nat) (err : Option GoError)
    (hash : String) (fs : Local.FS) :
    Local.deferCleanup o id true true err hash fs = ((hash, err), fs) := by
  simp [Local.deferCleanup]

theorem deferCleanup_closed_notRenamed_ok (o : Local.Oracle) (id : Nat) (err : Option GoError)
    (hash : String) (fs : Local.FS) (hok : o.deferRemoveOk = true) :
    Local.deferCleanup o id true false err hash fs =
      ((hash, err), { fs with tmpFiles := mapDel fs.tmpFiles id }) := by
  simp [Local.deferCleanup, hok]

theorem filter_ne_of_lt (tmp : List (Nat × List Nat)) (id : Nat)
    (hfresh : ∀ p ∈ tmp, p.1 < id) :
    tmp.filter (fun p => !(p.1 == id)) = tmp := by
  refine List.filter_eq_self.mpr ?_
  intro p hp
  have hlt : p.1 < id := hfresh p hp
  have hne : (p.1 == id) = false := beq_eq_false_iff_ne.mpr (by omega)
  simp [hne]

theorem Store_allOk_fresh (fs : Local.FS) (B : List Nat)
    (hnone : List.lookup (sha256hex B) fs.assets = none) :
    Local.Store 2 Local.allOk fs B =
      ((sha256hex B, none),
       { tmpNext := fs.tmpNext + 1,
         tmpFiles := fs.tmpFiles.filter (fun p => !(p.1 == fs.tmpNext)),
         dirs := if fs.dirs.contains (Local.goSlice (sha256hex B) 2) then fs.dirs
                 else Local.goSlice (sha256hex B) 2 :: fs.dirs,
         assets := mapSet fs.assets (sha256hex B) B }) := by
  have hlen : ¬ (sha256hex B).length < 2 := by rw [sha256hex_length]; omega
  simp [Local.Store, Local.allOk, hlen, hnone, deferCleanup_closed_renamed,
    mapSet, mapDel, List.filter_filter]

theorem Store_allOk_exists (fs : Local.FS) (B : List Nat)
    (hsome : (List.lookup (sha256hex B) fs.assets).isSome = true) :
    Local.Store 2 Local.allOk fs B =
      ((sha256hex B, none),
       { fs with tmpNext := fs.tmpNext + 1,
                 tmpFiles := fs.tmpFiles.filter (fun p => !(p.1 == fs.tmpNext)) }) := by
  have hlen : ¬ (sha256hex B).length < 2 := by rw [sha256hex_length]; omega
  simp [Local.Store, Local.allOk, hlen, hsome, deferCleanup_closed_notRenamed_ok,
    mapSet, mapDel, List.filter_filter]

set_option maxHeartbeats 1600000 in
/-- C2 (amended): whenever local `Store` starts in a state where the
content's hash is absent and returns an error, no artifact is reachable
under that hash afterwards — except in one case the claim misses: when the
final `os.Chmod` fails after the successful rename, `Store` reports the
error although the content is fully promoted at the target path. -/
theorem Store_err_assets (ps : Nat) (o : Local.Oracle) (fs : Local.FS) (B : List Nat)
    (hash : String) (e : GoError) (fs' : Local.FS)
    (hnone : List.lookup (sha256hex B) fs.assets = none)
    (hstore : Local.Store ps o fs B = ((hash, some e), fs')) :
    List.lookup (sha256hex B) fs'.assets = none ∨
      (o.chmodOk = false ∧ List.lookup (sha256hex B) fs'.assets = some B) := by
  simp only [Local.Store] at hstore
  split_ifs at hstore with h1 h2 h3 h4 h5 h6 h7 h8 h9 h10 h11
  · -- os.CreateTemp failed: filesystem unchanged
    left
    have ha := congrArg (fun x => x.2.assets) hstore
    simp only at ha
    rw [← ha]; exact hnone
  · -- io.Copy failed: the deferred cleanup only touches the temp file
    left
    have ha := congrArg (fun x => x.2.assets) hstore
    simp only [deferCleanup_assets] at ha
    rw [← ha]; exact hnone
  · -- hash shorter than the prefix size
    left
    have ha := congrArg (fun x => x.2.assets) hstore
    simp only [deferCleanup_assets] at ha
    rw [← ha]; exact hnone
  · -- tempFile.Close failed
    left
    have ha := congrArg (fun x => x.2.assets) hstore
    simp only [deferCleanup_assets] at ha
    rw [← ha]; exact hnone
  · -- stat says the target exists: impossible, the hash is absent
    rw [hnone] at h5
    simp at h5
  · -- os.MkdirAll failed
    left
    have ha := congrArg (fun x => x.2.assets) hstore
    simp only [deferCleanup_assets] at ha
    rw [← ha]; exact hnone
  · -- os.Rename failed (shard directory already present)
    left
    have ha := congrArg (fun x => x.2.assets) hstore
    simp only [deferCleanup_assets] at ha
    rw [← ha]; exact hnone
  · -- os.Rename failed (shard directory created)
    left
    have ha := congrArg (fun x => x.2.assets) hstore
    simp only [deferCleanup_assets] at ha
    rw [← ha]; exact hnone
  · -- os.Chmod failed after a successful rename: the asset is fully present
    right
    rw [deferCleanup_closed_renamed] at hstore
    have ha := congrArg (fun x => x.2.assets) hstore
    simp only at ha
    refine ⟨by simpa using h9, ?_⟩
    rw [← ha]
    exact lookup_mapSet_self _ _ _
  · -- os.Chmod failed after a successful rename (shard directory created)
    right
    rw [deferCleanup_closed_renamed] at hstore
    have ha := congrArg (fun x => x.2.assets) hstore
    simp only at ha
    refine ⟨by simpa using h9, ?_⟩
    rw [← ha]
    exact lookup_mapSet_self _ _ _
  · -- full success contradicts the error result
    rw [deferCleanup_closed_renamed] at hstore
    simp at hstore
  · -- full success contradicts the error result
    rw [deferCleanup_closed_renamed] at hstore
    simp at hstore

theorem iterateAux_err (k j : Nat) (e : GoError) :
    ∀ (xs buf : List String) (n : Nat) (bs : List (List String)),
      n ≤ j → j - n < (chunksAux k buf xs).length →
      iterateAux k (cbErrAt j e) buf xs (n, bs) =
        ((j + 1, bs ++ (chunksAux k buf xs).take (j + 1 - n)), some e) := by
  intro xs
  induction xs with
  | nil =>
      intro buf n bs hnj hlt
      by_cases h : buf.length > 0
      · have h1 : chunksAux k buf [] = [buf] := by simp [chunksAux, h]
        rw [h1] at hlt ⊢
        simp only [List.length_cons, List.length_nil] at hlt
        have hjn : j = n := by omega
        subst hjn
        have ht : j + 1 - j = 1 := by omega
        simp [iterateAux, cbErrAt, h, ht]
      · have h1 : chunksAux k buf [] = [] := by simp [chunksAux, h]
        rw [h1] at hlt
        simp at hlt
  | cons x t ih =>
      intro buf n bs hnj hlt
      by_cases h : buf.length + 1 = k
      · have h1 : chunksAux k buf (x :: t) = (buf ++ [x]) :: chunksAux k [] t := by
          simp [chunksAux, h]
        rw [h1] at hlt ⊢
        by_cases hjn : n = j
        · subst hjn
          have ht : n + 1 - n = 1 := by omega
          simp [iterateAux, cbErrAt, h, ht]
        · have hne : (n == j) = false := beq_eq_false_iff_ne.mpr hjn
          have hlt' : j - (n + 1) < (chunksAux k [] t).length := by
            simp only [List.length_cons] at hlt
            omega
          have hiter : iterateAux k (cbErrAt j e) buf (x :: t) (n, bs) =
              iterateAux k (cbErrAt j e) [] t (n + 1, bs ++ [buf ++ [x]]) := by
            simp [iterateAux, cbErrAt, h, hne]
          rw [hiter, ih [] (n + 1) (bs ++ [buf ++ [x]]) (by omega) hlt']
          have htake : j + 1 - n = (j - n) + 1 := by omega
          have htake2 : j + 1 - (n + 1) = j - n := by omega
          rw [htake, htake2, List.take_succ_cons, List.append_assoc]
          simp
      · have h1 : chunksAux k buf (x :: t) = chunksAux k (buf ++ [x]) t := by
          simp [chunksAux, h]
        rw [h1] at hlt ⊢
        have hiter : iterateAux k (cbErrAt j e) buf (x :: t) (n, bs) =
            iterateAux k (cbErrAt j e) (buf ++ [x]) t (n, bs) := by
          simp [iterateAux, h]
        rw [hiter]
        exact ih (buf ++ [x]) n bs hnj hlt

/-! ## Claim theorems -/

/-- C4: for a store enumerating N hashes and a batch size K ≥ 1, `Iterate`
with a never-erroring callback invokes the callback exactly ceil(N/K) times;
every batch except possibly the last has exactly K hashes, the final batch
has N mod K hashes (or K when N is an exact positive multiple of K), and the
concatenation of all batches is exactly the enumerated duplicate-free list of
stored hashes. -/
theorem c4_iterate_batches (hashes : List String) (k : Nat) (hk : 1 ≤ k) :
    (Iterate k cbRec hashes (0, [])).2 = none ∧
    (Iterate k cbRec hashes (0, [])).1.1 = (hashes.length + k - 1) / k ∧
    (Iterate k cbRec hashes (0, [])).1.2.length = (hashes.length + k - 1) / k ∧
    (∀ b ∈ (Iterate k cbRec hashes (0, [])).1.2.dropLast, b.length = k) ∧
    (hashes ≠ [] →
      (Iterate k cbRec hashes (0, [])).1.2.getLast?.map List.length =
        some (if hashes.length % k = 0 then k else hashes.length % k)) ∧
    (Iterate k cbRec hashes (0, [])).1.2.flatten = hashes := by
  have hrec := iterateAux_rec k hashes [] 0 []
  have hlen := chunksAux_length k hashes [] (by simp; omega)
  simp only [Iterate]
  rw [hrec]
  simp only [Nat.zero_add, List.nil_append]
  refine ⟨trivial, ?_, ?_, ?_, ?_, ?_⟩
  · simpa using hlen
  · simpa using hlen
  · intro b hb
    by_cases hne : hashes = []
    · subst hne
      simp [chunksAux] at hb
    · exact (chunksAux_last k hashes [] (by simp; omega) (Or.inr hne)).2.1 b hb
  · intro hne
    have := (chunksAux_last k hashes [] (by simp; omega) (Or.inr hne)).2.2
    simpa using this
  · simpa using chunksAux_flatten k hashes []

/-- Witness for C4 at three hashes and batch size two. -/
theorem c4_iterate_batches_witness :
    1 ≤ 2 ∧
    ((Iterate 2 cbRec ["a", "b", "c"] (0, [])).2 = none ∧
     (Iterate 2 cbRec ["a", "b", "c"] (0, [])).1.1 = (["a", "b", "c"].length + 2 - 1) / 2 ∧
     (Iterate 2 cbRec ["a", "b", "c"] (0, [])).1.2.length = (["a", "b", "c"].length + 2 - 1) / 2 ∧
     (∀ b ∈ (Iterate 2 cbRec ["a", "b", "c"] (0, [])).1.2.dropLast, b.length = 2) ∧
     (["a", "b", "c"] ≠ ([] : List String) →
       (Iterate 2 cbRec ["a", "b", "c"] (0, [])).1.2.getLast?.map List.length =
         some (if ["a", "b", "c"].length % 2 = 0 then 2 else ["a", "b", "c"].length % 2)) ∧
     (Iterate 2 cbRec ["a", "b", "c"] (0, [])).1.2.flatten = ["a", "b", "c"]) :=
  ⟨by norm_num, c4_iterate_batches ["a", "b", "c"] 2 (by norm_num)⟩

/-- C5: if the callback fails on its j-th invocation, `Iterate` returns that
very error, the callback was invoked exactly j+1 times and only the first
j+1 batches were visited; concretely, with 21 stored hashes and batch size 5
and a never-erroring callback, the callback runs exactly 5 times and the
final batch holds exactly 1 hash. -/
theorem c5_iterate_error_stops :
    (∀ (hashes : List String) (k j : Nat) (e : GoError), 1 ≤ k →
        j < (chunks k hashes).length →
        Iterate k (cbErrAt j e) hashes (0, []) =
          ((j + 1, (chunks k hashes).take (j + 1)), some e)) ∧
    (∀ hashes : List String, hashes.length = 21 →
        (Iterate 5 cbRec hashes (0, [])).2 = none ∧
        (Iterate 5 cbRec hashes (0, [])).1.1 = 5 ∧
        (Iterate 5 cbRec hashes (0, [])).1.2.getLast?.map List.length = some 1) := by
  constructor
  · intro hashes k j e hk hj
    have := iterateAux_err k j e hashes [] 0 [] (by omega) (by simpa [chunks] using hj)
    simpa [Iterate, chunks] using this
  · intro hashes h21
    have hne : hashes ≠ [] := by
      intro hh
      rw [hh] at h21
      simp at h21
    have hrec := iterateAux_rec 5 hashes [] 0 []
    have hlen := chunksAux_length 5 hashes [] (by simp)
    have hlast := (chunksAux_last 5 hashes [] (by simp) (Or.inr hne)).2.2
    simp only [Iterate]
    rw [hrec]
    simp only [Nat.zero_add, List.nil_append]
    refine ⟨trivial, ?_, ?_⟩
    · rw [hlen]
      simp [h21]
    · rw [h21] at hlast
      simpa using hlast

/-- Witness for C5: an error on the second batch of three singleton batches,
and a concrete 21-element enumeration with batch size 5. -/
theorem c5_iterate_error_stops_witness :
    (1 ≤ 1 ∧ 1 < (chunks 1 ["a", "b", "c"]).length ∧
      Iterate 1 (cbErrAt 1 GoError.errNotExist) ["a", "b", "c"] (0, []) =
        ((1 + 1, (chunks 1 ["a", "b", "c"]).take (1 + 1)), some GoError.errNotExist)) ∧
    ((List.replicate 21 "h").length = 21 ∧
      (Iterate 5 cbRec (List.replicate 21 "h") (0, [])).2 = none ∧
      (Iterate 5 cbRec (List.replicate 21 "h") (0, [])).1.1 = 5 ∧
      (Iterate 5 cbRec (List.replicate 21 "h") (0, [])).1.2.getLast?.map List.length = some 1) :=
  ⟨⟨by norm_num, by decide,
     c5_iterate_error_stops.1 ["a", "b", "c"] 1 1 GoError.errNotExist (by norm_num) (by decide)⟩,
   ⟨by decide, c5_iterate_error_stops.2 (List.replicate 21 "h") (by decide)⟩⟩

/-- C1: storing any byte sequence succeeds and returns the lowercase
hex-encoded SHA-256 digest of the content (64 characters over the lowercase
hex alphabet), and fetching that hash afterwards returns exactly the stored
bytes — for the in-memory backend on any store state, and for the local
backend on any filesystem state not already holding the hash, with every
syscall succeeding. -/
theorem c1_store_fetch_roundtrip (m : Memory.FilesMap) (fs : Local.FS) (B : List Nat) :
    (Memory.Store m B).1 = sha256hex B ∧
    (sha256hex B).length = 64 ∧
    (∀ c ∈ (sha256hex B).data, c ∈ hexDigits) ∧
    Memory.Fetch (Memory.Store m B).2 (Memory.Store m B).1 = .ok B ∧
    (List.lookup (sha256hex B) fs.assets = none →
      (Local.Store 2 Local.allOk fs B).1 = (sha256hex B, none) ∧
      Local.Fetch 2 (Local.Store 2 Local.allOk fs B).2 (sha256hex B) = .ok B) := by
  refine ⟨rfl, sha256hex_length B, fun c hc => sha256hex_mem B c hc, ?_, ?_⟩
  · show Memory.Fetch (mapSet m (sha256hex B) B) (sha256hex B) = .ok B
    simp [Memory.Fetch, lookup_mapSet_self]
  · intro hnone
    rw [Store_allOk_fresh fs B hnone]
    have hlen : ¬ (sha256hex B).length < 2 := by rw [sha256hex_length]; omega
    exact ⟨rfl, by simp [Local.Fetch, hlen, lookup_mapSet_self]⟩

/-- Witness for C1 on the empty byte sequence and fresh stores. -/
theorem c1_store_fetch_roundtrip_witness :
    List.lookup (sha256hex []) Local.NewFilestore.assets = none ∧
    ((Local.Store 2 Local.allOk Local.NewFilestore []).1 = (sha256hex [], none) ∧
     Local.Fetch 2 (Local.Store 2 Local.allOk Local.NewFilestore []).2 (sha256hex []) = .ok []) :=
  ⟨rfl, (c1_store_fetch_roundtrip [] Local.NewFilestore []).2.2.2.2 rfl⟩

/-- C3: with every syscall succeeding, storing the same bytes twice on the
local backend returns the same hash both times (the second call
short-circuits on the existing destination), and after each call the staging
directory holds exactly the entries it held before the call — no leftover
temp file. -/
theorem c3_store_idempotent (fs : Local.FS) (B : List Nat)
    (hfresh : ∀ p ∈ fs.tmpFiles, p.1 < fs.tmpNext) :
    (Local.Store 2 Local.allOk fs B).1 = (sha256hex B, none) ∧
    (Local.Store 2 Local.allOk fs B).2.tmpFiles = fs.tmpFiles ∧
    (Local.Store 2 Local.allOk (Local.Store 2 Local.allOk fs B).2 B).1 = (sha256hex B, none) ∧
    (Local.Store 2 Local.allOk (Local.Store 2 Local.allOk fs B).2 B).2.tmpFiles = fs.tmpFiles := by
  have hfresh1 : ∀ p ∈ fs.tmpFiles, p.1 < fs.tmpNext + 1 := fun p hp => by
    have := hfresh p hp
    omega
  by_cases hl : (List.lookup (sha256hex B) fs.assets).isSome = true
  · rw [Store_allOk_exists fs B hl]
    rw [Store_allOk_exists]
    · refine ⟨rfl, filter_ne_of_lt _ _ hfresh, rfl, ?_⟩
      show (fs.tmpFiles.filter (fun p => !(p.1 == fs.tmpNext))).filter
          (fun p => !(p.1 == fs.tmpNext + 1)) = fs.tmpFiles
      rw [filter_ne_of_lt _ _ hfresh, filter_ne_of_lt _ _ hfresh1]
    · exact hl
  · have hnone : List.lookup (sha256hex B) fs.assets = none :=
      Option.not_isSome_iff_eq_none.mp (by simpa using hl)
    rw [Store_allOk_fresh fs B hnone]
    rw [Store_allOk_exists]
    · refine ⟨rfl, filter_ne_of_lt _ _ hfresh, rfl, ?_⟩
      show (fs.tmpFiles.filter (fun p => !(p.1 == fs.tmpNext))).filter
          (fun p => !(p.1 == fs.tmpNext + 1)) = fs.tmpFiles
      rw [filter_ne_of_lt _ _ hfresh, filter_ne_of_lt _ _ hfresh1]
    · show (List.lookup (sha256hex B) (mapSet fs.assets (sha256hex B) B)).isSome = true
      rw [lookup_mapSet_self]
      rfl

/-- Witness for C3 on the empty byte sequence and a fresh store. -/
theorem c3_store_idempotent_witness :
    (∀ p ∈ Local.NewFilestore.tmpFiles, p.1 < Local.NewFilestore.tmpNext) ∧
    ((Local.Store 2 Local.allOk Local.NewFilestore []).1 = (sha256hex [], none) ∧
     (Local.Store 2 Local.allOk Local.NewFilestore []).2.tmpFiles = Local.NewFilestore.tmpFiles ∧
     (Local.Store 2 Local.allOk
        (Local.Store 2 Local.allOk Local.NewFilestore []).2 []).1 = (sha256hex [], none) ∧
     (Local.Store 2 Local.allOk
        (Local.Store 2 Local.allOk Local.NewFilestore []).2 []).2.tmpFiles =
       Local.NewFilestore.tmpFiles) :=
  ⟨by simp [Local.NewFilestore], c3_store_idempotent Local.NewFilestore [] (by simp [Local.NewFilestore])⟩

/-- C2 counterexample: with only the final chmod failing, `Store` of the
repository's test content returns an error while the file exists at the
target path with the full content — refuting the claim that an error leaves
no artifact reachable under the content's hash. -/
theorem c2_chmod_counterexample :
    (Local.Store 2 oChmodFail Local.NewFilestore (strBytes "Test content")).1.2 =
      some (.wrapped "setting file mode" (.ioFail "chmod")) ∧
    List.lookup (sha256hex (strBytes "Test content"))
      (Local.Store 2 oChmodFail Local.NewFilestore (strBytes "Test content")).2.assets =
      some (strBytes "Test content") := by
  decide

/-- Witness for C2 (amended) on a failing copy from a fresh store. -/
theorem Store_err_assets_witness :
    List.lookup (sha256hex []) Local.NewFilestore.assets = none ∧
    Local.Store 2 oCopyFail Local.NewFilestore [] =
      (("", some (.wrapped "copying reader" (.ioFail "copy"))), ⟨1, [], [], []⟩) ∧
    (List.lookup (sha256hex []) (⟨1, [], [], []⟩ : Local.FS).assets = none ∨
     (oCopyFail.chmodOk = false ∧
      List.lookup (sha256hex []) (⟨1, [], [], []⟩ : Local.FS).assets = some [])) :=
  ⟨rfl, rfl,
   Store_err_assets 2 oCopyFail Local.NewFilestore [] ""
     (.wrapped "copying reader" (.ioFail "copy")) ⟨1, [], [], []⟩ rfl rfl⟩

/-- C6 (code-bug evidence): the in-memory backend removes a stored hash,
fetching it afterwards fails with `ErrNotExist`, and removing an absent hash
fails with `ErrNotExist`; the local backend also removes a stored hash and
translates the subsequent fetch to `ErrNotExist`, but its `Remove` of an
absent hash returns the wrapped `os.Remove` path error, which satisfies
`errors.Is(err, os.ErrNotExist)` yet NOT
`errors.Is(err, filestore.ErrNotExist)` — contradicting the repository's own
`TestFilestore_Remove`. -/
theorem c6_remove_notfound_eval :
    (Memory.Remove
        [("9d9595c5d94fb65b824f56e9999527dba9542481580d69feb89056aabaa0aa87",
          strBytes "Test content")]
        "9d9595c5d94fb65b824f56e9999527dba9542481580d69feb89056aabaa0aa87" = .ok [] ∧
     Memory.Fetch ([] : Memory.FilesMap)
        "9d9595c5d94fb65b824f56e9999527dba9542481580d69feb89056aabaa0aa87" =
       .error .errNotExist ∧
     Memory.Remove ([] : Memory.FilesMap)
        "a09595c5d94fb65b824f56e9999527dba9542481580d69feb89056aabaa0aa87" =
       .error .errNotExist) ∧
    (Local.Remove 2
        ⟨1, [], ["9d"],
         [("9d9595c5d94fb65b824f56e9999527dba9542481580d69feb89056aabaa0aa87",
           strBytes "Test content")]⟩
        "9d9595c5d94fb65b824f56e9999527dba9542481580d69feb89056aabaa0aa87" =
       .ok ⟨1, [], [], []⟩ ∧
     Local.Fetch 2 ⟨1, [], [], []⟩
        "9d9595c5d94fb65b824f56e9999527dba9542481580d69feb89056aabaa0aa87" =
       .error .errNotExist) ∧
    (Local.Remove 2 Local.NewFilestore
        "a09595c5d94fb65b824f56e9999527dba9542481580d69feb89056aabaa0aa87" =
       .error (.wrapped "removing file"
         (.pathError "remove"
           ("a0/" ++ "a09595c5d94fb65b824f56e9999527dba9542481580d69feb89056aabaa0aa87")
           .enoent)) ∧
     errorIs
       (.wrapped "removing file"
         (.pathError "remove"
           ("a0/" ++ "a09595c5d94fb65b824f56e9999527dba9542481580d69feb89056aabaa0aa87")
           .enoent))
       .osErrNotExist = true ∧
     errorIs
       (.wrapped "removing file"
         (.pathError "remove"
           ("a0/" ++ "a09595c5d94fb65b824f56e9999527dba9542481580d69feb89056aabaa0aa87")
           .enoent))
       .errNotExist = false) :=
  ⟨⟨rfl, rfl, rfl⟩, ⟨rfl, rfl⟩, ⟨rfl, rfl, rfl⟩⟩

/-- C7 counterexample: local `Size` of an absent hash returns the raw
`os.Stat` path error, not the store's `ErrNotExist` sentinel. -/
theorem c7_size_counterexample :
    Local.Size 2 Local.NewFilestore
        "a09595c5d94fb65b824f56e9999527dba9542481580d69feb89056aabaa0aa87" =
      .error (.pathError "stat"
        ("a0/" ++ "a09595c5d94fb65b824f56e9999527dba9542481580d69feb89056aabaa0aa87")
        .enoent) ∧
    errorIs
      (.pathError "stat"
        ("a0/" ++ "a09595c5d94fb65b824f56e9999527dba9542481580d69feb89056aabaa0aa87")
        .enoent)
      .errNotExist = false :=
  ⟨rfl, rfl⟩

/-- C7 (amended): `Size` returns the exact byte length of the stored content
on both backends; for an absent hash the in-memory backend fails with the
store's `ErrNotExist` sentinel, while the local backend returns the
untranslated `os.Stat` path error — it satisfies
`errors.Is(err, os.ErrNotExist)` but not the store's sentinel. -/
theorem c7_size_amended (m : Memory.FilesMap) (fs : Local.FS) (h : String) (d : List Nat) :
    (List.lookup h m = some d → Memory.Size m h = .ok d.length) ∧
    (List.lookup h m = none → Memory.Size m h = .error .errNotExist) ∧
    (2 ≤ h.length → List.lookup h fs.assets = some d → Local.Size 2 fs h = .ok d.length) ∧
    (2 ≤ h.length → List.lookup h fs.assets = none →
      Local.Size 2 fs h =
        .error (.pathError "stat" (Local.goSlice h 2 ++ "/" ++ h) .enoent) ∧
      errorIs (.pathError "stat" (Local.goSlice h 2 ++ "/" ++ h) .enoent) .osErrNotExist = true ∧
      errorIs (.pathError "stat" (Local.goSlice h 2 ++ "/" ++ h) .enoent) .errNotExist = false) := by
  refine ⟨?_, ?_, ?_, ?_⟩
  · intro hl
    simp [Memory.Size, hl]
  · intro hl
    simp [Memory.Size, hl]
  · intro hlen hl
    simp [Local.Size, hl, Nat.not_lt.mpr hlen]
  · intro hlen hl
    exact ⟨by simp [Local.Size, hl, Nat.not_lt.mpr hlen], rfl, rfl⟩

/-- Witness for C7 (amended) on a one-entry store and an absent hash. -/
theorem c7_size_amended_witness :
    (List.lookup "9d9595c5d94fb65b824f56e9999527dba9542481580d69feb89056aabaa0aa87"
        [("9d9595c5d94fb65b824f56e9999527dba9542481580d69feb89056aabaa0aa87", [7, 8, 9])] =
      some [7, 8, 9] ∧
     Memory.Size
        [("9d9595c5d94fb65b824f56e9999527dba9542481580d69feb89056aabaa0aa87", [7, 8, 9])]
        "9d9595c5d94fb65b824f56e9999527dba9542481580d69feb89056aabaa0aa87" =
       .ok ([7, 8, 9] : List Nat).length) ∧
    (List.lookup "a09595c5d94fb65b824f56e9999527dba9542481580d69feb89056aabaa0aa87"
        ([] : Memory.FilesMap) = none ∧
     Memory.Size ([] : Memory.FilesMap)
        "a09595c5d94fb65b824f56e9999527dba9542481580d69feb89056aabaa0aa87" =
       .error .errNotExist) ∧
    (2 ≤ ("a09595c5d94fb65b824f56e9999527dba9542481580d69feb89056aabaa0aa87" : String).length ∧
     List.lookup "a09595c5d94fb65b824f56e9999527dba9542481580d69feb89056aabaa0aa87"
        Local.NewFilestore.assets = none ∧
     Local.Size 2 Local.NewFilestore
        "a09595c5d94fb65b824f56e9999527dba9542481580d69feb89056aabaa0aa87" =
       .error (.pathError "stat"
         (Local.goSlice "a09595c5d94fb65b824f56e9999527dba9542481580d69feb89056aabaa0aa87" 2 ++
           "/" ++ "a09595c5d94fb65b824f56e9999527dba9542481580d69feb89056aabaa0aa87")
         .enoent)) :=
  ⟨⟨by decide,
    (c7_size_amended
      [("9d9595c5d94fb65b824f56e9999527dba9542481580d69feb89056aabaa0aa87", [7, 8, 9])]
      Local.NewFilestore
      "9d9595c5d94fb65b824f56e9999527dba9542481580d69feb89056aabaa0aa87" [7, 8, 9]).1
      (by decide)⟩,
   ⟨rfl,
    (c7_size_amended ([] : Memory.FilesMap) Local.NewFilestore
      "a09595c5d94fb65b824f56e9999527dba9542481580d69feb89056aabaa0aa87" []).2.1 rfl⟩,
   ⟨by decide, rfl,
    ((c7_size_amended ([] : Memory.FilesMap) Local.NewFilestore
      "a09595c5d94fb65b824f56e9999527dba9542481580d69feb89056aabaa0aa87" []).2.2.2
      (by decide) rfl).1⟩⟩

/-- C8: the local locator fails with the invalid-hash error exactly when the
hash is shorter than the configured shard prefix length, and otherwise
returns `local:///<prefix>/<hash>`; in particular the repository's test hash
with the default prefix size 2 yields the documented locator. -/
theorem c8_imgproxy_url_source (ps : Nat) (h : String) :
    (h.length < ps → Local.ImgproxyURLSource ps h = .error .invalidHash) ∧
    (ps ≤ h.length →
      Local.ImgproxyURLSource ps h = .ok ("local:///" ++ Local.goSlice h ps ++ "/" ++ h)) ∧
    Local.ImgproxyURLSource 2
        "9d9595c5d94fb65b824f56e9999527dba9542481580d69feb89056aabaa0aa87" =
      .ok "local:///9d/9d9595c5d94fb65b824f56e9999527dba9542481580d69feb89056aabaa0aa87" := by
  refine ⟨?_, ?_, rfl⟩
  · intro hlt
    simp [Local.ImgproxyURLSource, Local.prefixPath, hlt]
  · intro hge
    simp [Local.ImgproxyURLSource, Local.prefixPath, Nat.not_lt.mpr hge]

/-- Witness for C8 on a too-short hash and on the repository's test hash. -/
theorem c8_imgproxy_url_source_witness :
    (("a" : String).length < 2 ∧ Local.ImgproxyURLSource 2 "a" = .error .invalidHash) ∧
    (2 ≤ ("9d9595c5d94fb65b824f56e9999527dba9542481580d69feb89056aabaa0aa87" : String).length ∧
     Local.ImgproxyURLSource 2
         "9d9595c5d94fb65b824f56e9999527dba9542481580d69feb89056aabaa0aa87" =
       .ok ("local:///" ++
         Local.goSlice "9d9595c5d94fb65b824f56e9999527dba9542481580d69feb89056aabaa0aa87" 2 ++
         "/" ++ "9d9595c5d94fb65b824f56e9999527dba9542481580d69feb89056aabaa0aa87")) :=
  ⟨⟨by decide, (c8_imgproxy_url_source 2 "a").1 (by decide)⟩,
   ⟨by decide,
    (c8_imgproxy_url_source 2
      "9d9595c5d94fb65b824f56e9999527dba9542481580d69feb89056aabaa0aa87").2.1 (by decide)⟩⟩

/-- C9: `StoreHashed` trusts the caller-supplied hash: when the hash is
already present with content c1, it returns success without reading the
supplied reader, the content under the hash is still c1 and every other hash
is unchanged; when the hash is absent, the reader's bytes are stored under
the caller's hash with no digest verification whatsoever. -/
theorem c9_storehashed_trusts_caller :
    (∀ (m : Memory.FilesMap) (h : String) (c1 c2 : List Nat),
       List.lookup h m = some c1 →
       Memory.StoreHashed m c2 h = (m, false) ∧
       List.lookup h (Memory.StoreHashed m c2 h).1 = some c1 ∧
       ∀ h' : String, List.lookup h' (Memory.StoreHashed m c2 h).1 = List.lookup h' m) ∧
    (∀ (m : Memory.FilesMap) (h : String) (c2 : List Nat),
       List.lookup h m = none →
       Memory.StoreHashed m c2 h = (mapSet m h c2, true)) := by
  constructor
  · intro m h c1 c2 hl
    have hs : (List.lookup h m).isSome = true := by rw [hl]; rfl
    refine ⟨by simp [Memory.StoreHashed, hs], ?_, ?_⟩
    · simp [Memory.StoreHashed, hs, hl]
    · intro h'
      simp [Memory.StoreHashed, hs]
  · intro m h c2 hl
    simp [Memory.StoreHashed, hl]

/-- Witness for C9: a store holding bytes [1] under hash "ab", offered
different bytes [9, 9] for the same hash, and the absent-hash case storing
unverified content. -/
theorem c9_storehashed_trusts_caller_witness :
    (List.lookup "ab" [("ab", [1])] = some [1] ∧
     Memory.StoreHashed [("ab", [1])] [9, 9] "ab" = ([("ab", [1])], false) ∧
     List.lookup "ab" (Memory.StoreHashed [("ab", [1])] [9, 9] "ab").1 = some [1] ∧
     (∀ h' : String,
        List.lookup h' (Memory.StoreHashed [("ab", [1])] [9, 9] "ab").1 =
          List.lookup h' [("ab", [1])])) ∧
    (List.lookup "cd" ([] : Memory.FilesMap) = none ∧
     Memory.StoreHashed ([] : Memory.FilesMap) [9, 9] "cd" = (mapSet [] "cd" [9, 9], true)) :=
  ⟨⟨by decide,
    (c9_storehashed_trusts_caller.1 [("ab", [1])] "ab" [1] [9, 9] (by decide)).1,
    (c9_storehashed_trusts_caller.1 [("ab", [1])] "ab" [1] [9, 9] (by decide)).2.1,
    (c9_storehashed_trusts_caller.1 [("ab", [1])] "ab" [1] [9, 9] (by decide)).2.2⟩,
   ⟨rfl, c9_storehashed_trusts_caller.2 ([] : Memory.FilesMap) "cd" [9, 9] rfl⟩⟩

/-- Content-addressing invariant: every key of the map is the hex digest of
the bytes stored under it; preserved by one Store or Remove. -/
theorem contentAddressed_apply (m : Memory.FilesMap)
    (hm : ∀ k v, List.lookup k m = some v → k = sha256hex v) (op : FSOp) :
    ∀ k v, List.lookup k (applyOp m op) = some v → k = sha256hex v := by
  intro k v hl
  cases op with
  | store r =>
      simp only [applyOp, Memory.Store] at hl
      rcases lookup_mapSet_cases _ _ _ _ _ hl with ⟨rfl, rfl⟩ | ⟨hne, hl'⟩
      · rfl
      · exact hm k v hl'
  | removeOp h =>
      simp only [applyOp, Memory.Remove] at hl
      by_cases hh : (List.lookup h m).isSome = true
      · rw [if_pos hh] at hl
        by_cases hk : k = h
        · subst hk
          rw [lookup_mapDel_self] at hl
          exact absurd hl (by simp)
        · rw [lookup_mapDel_ne m h k hk] at hl
          exact hm k v hl
      · rw [if_neg hh] at hl
        exact hm k v hl

/-- Content-addressing invariant is preserved by any operation sequence. -/
theorem contentAddressed_foldl (ops : List FSOp) :
    ∀ (m : Memory.FilesMap), (∀ k v, List.lookup k m = some v → k = sha256hex v) →
      ∀ k v, List.lookup k (ops.foldl applyOp m) = some v → k = sha256hex v := by
  induction ops with
  | nil =>
      intro m hm
      exact hm
  | cons op t ih =>
      intro m hm
      exact ih (applyOp m op) (contentAddressed_apply m hm op)

/-- C10: starting from the empty in-memory store, after any finite sequence
of Store and Remove operations every key present in the map equals the
lowercase hex SHA-256 digest of the bytes stored under it. -/
theorem c10_content_addressing (ops : List FSOp) (k : String) (v : List Nat)
    (hl : List.lookup k (applyOps ops) = some v) : k = sha256hex v := by
  refine contentAddressed_foldl ops Memory.NewFilestore ?_ k v hl
  intro k' v' hl'
  simp [Memory.NewFilestore] at hl'

/-- Witness for C10: storing the empty byte sequence yields the well-known
empty-input digest as the only key. -/
theorem c10_content_addressing_witness :
    List.lookup "e3b0c44298fc1c149afbf4c8996fb92427ae41e4649b934ca495991b7852b855"
        (applyOps [FSOp.store []]) = some [] ∧
    "e3b0c44298fc1c149afbf4c8996fb92427ae41e4649b934ca495991b7852b855" = sha256hex [] :=
  ⟨by decide,
   c10_content_addressing [FSOp.store []]
     "e3b0c44298fc1c149afbf4c8996fb92427ae41e4649b934ca495991b7852b855" [] (by decide)⟩
